import Mathlib

/-!
Shallow embedding of the cron-schedule construction engine of the
cuckoo_project repository, taken from `Bot/app/cuckoo_cron_build.py`,
`Bot/app/constants.py`, `Bot/app/user_data_dataclass.py` and
`Bot/app/second_level_menu.py`.

Conventions: python lists of strings become `List String`, python `int`
becomes `ℤ`, code that can raise returns `Option` (with `none` for the
exception), and the outcomes of the two external collaborators that the
handlers consult (`os.path.exists` and `create_cron_schedule`) are passed
in as `Bool` parameters.  Telegram rendering calls (`edit_message_text`,
keyboard construction) have no effect on the session state that the claims
speak about and are not modelled beyond the data they are handed.
-/

/-- Python compares strings by unicode code point, lexicographically; this
is that comparison on the underlying character lists. -/
def dataLe : List Char → List Char → Bool
  | [], _ => true
  | _ :: _, [] => false
  | a :: as, b :: bs =>
    if a.toNat < b.toNat then true
    else if b.toNat < a.toNat then false
    else dataLe as bs

/-- Python string `<=`. -/
def pyStrLe (s t : String) : Bool := dataLe s.data t.data

/-- Python integer `<=` as a boolean comparator. -/
def pyIntLe (a b : ℤ) : Bool := decide (a ≤ b)

/-- Insertion step for `pySort`. -/
def insertSorted (le : α → α → Bool) (a : α) : List α → List α
  | [] => [a]
  | b :: l => if le a b then a :: b :: l else b :: insertSorted le a l

/-- Model of python `sorted(...)` / `list.sort()`.  For a total,
antisymmetric comparator the sorted permutation of a list is unique, so
insertion sort returns exactly the list python's sort returns. -/
def pySort (le : α → α → Bool) (l : List α) : List α := l.foldr (insertSorted le) []

/-- `constants.py` line 12. -/
def NO_VALUES : String := "-1"

/-- `constants.py` line 13. -/
def ALL_VALUES : String := "0"

/-- `constants.py` lines 16-26: `SCHEDULE_PLAY_MENU` is the sixth name
bound to `range(9)`. -/
def SCHEDULE_PLAY_MENU : ℕ := 5

/-- `constants.py` lines 16-26: `RECORD_OR_UPLOAD_SOUND_MENU` is the
fourth name bound to `range(9)`. -/
def RECORD_OR_UPLOAD_SOUND_MENU : ℕ := 3

/-- The five cron dimensions, keyed in the source by the strings
`"minute"`, `"hour"`, `"day"`, `"month"`, `"day_of_week"`. -/
inductive Dim
  | minute
  | hour
  | day
  | month
  | day_of_week
deriving DecidableEq

/-- `Constants._month_names` (`constants.py` lines 83-96). -/
def month_names : List String :=
  ["January", "February", "March", "April", "May", "June", "July",
   "August", "September", "October", "November", "December"]

/-- `Constants._day_of_week_names` (`constants.py` lines 98-106). -/
def day_of_week_names : List String :=
  ["Sunday", "Monday", "Tuesday", "Wednesday", "Thursday", "Friday", "Saturday"]

/-- `Constants._full_range_dict` (`constants.py` lines 132-138), with
`_minutes_gap = 1`:
`day ↦ [str(i) for i in range(1, 32)]`, `hour ↦ range(0, 25)`,
`minute ↦ range(0, 61)`, and the two name lists. -/
def full_range_dict : Dim → List String
  | .day => (List.range 31).map (fun i => toString (i + 1))
  | .day_of_week => day_of_week_names
  | .month => month_names
  | .hour => (List.range 25).map (fun i => toString i)
  | .minute => (List.range 61).map (fun i => toString i)

/-- The exact-match language of each allow-list regex of
`Constants._value_pattern_dict` (`constants.py` lines 111-130).  Every
alternative of every pattern is anchored as `^...$`, and each finite
alternation denotes the finite set of strings listed here:
day `^(-1|[0-9]|1?[0-9]|2[0-9]|3[0-1])$` is `{-1} ∪ {0..31}`,
minute `^-1$|^0$|^minute_(?:[0-9]|[1-5][0-9]|60)$`,
hour `^-1$|^0$|^hour_(?:[0-9]|1[0-9]|2[0-3])$` (note: `hour_24` absent),
month and day_of_week are the sentinels plus the bare names. -/
def pattern_core : Dim → List String
  | .day => NO_VALUES :: (List.range 32).map (fun i => toString i)
  | .day_of_week => [NO_VALUES, ALL_VALUES] ++ day_of_week_names
  | .month => [NO_VALUES, ALL_VALUES] ++ month_names
  | .hour => [NO_VALUES, ALL_VALUES] ++ (List.range 24).map (fun i => "hour_" ++ toString i)
  | .minute => [NO_VALUES, ALL_VALUES] ++ (List.range 61).map (fun i => "minute_" ++ toString i)

/-- In python `re`, `$` matches at the end of the string and also just
before one trailing newline, so each anchored alternative additionally
accepts its string followed by a single `"\n"`. -/
def with_trailing_newline (l : List String) : List String :=
  l ++ l.map (fun s => s ++ "\n")

/-- The set of strings accepted by `re.match(pattern, ·)` for the
dimension's allow-list pattern. -/
def pattern_language (d : Dim) : List String := with_trailing_newline (pattern_core d)

/-- `re.match(Constants.get_value_pattern_dict()[key], query_data)`
viewed as a boolean test (`second_level_menu.py` line 299). -/
def value_pattern_matches (d : Dim) (s : String) : Bool := decide (s ∈ pattern_language d)

/-- `ScheduleConfig` (`user_data_dataclass.py` lines 9-93): five lists of
label strings, one per cron dimension, all empty by default. -/
structure ScheduleConfig where
  minute : List String := []
  hour : List String := []
  day : List String := []
  month : List String := []
  day_of_week : List String := []
deriving DecidableEq

/-- `getattr(schedule_info, key)` for the five dimension keys. -/
def getDim (c : ScheduleConfig) : Dim → List String
  | .minute => c.minute
  | .hour => c.hour
  | .day => c.day
  | .month => c.month
  | .day_of_week => c.day_of_week

/-- `setattr(schedule_info, key, v)` for the five dimension keys. -/
def setDim (c : ScheduleConfig) : Dim → List String → ScheduleConfig
  | .minute, v => { c with minute := v }
  | .hour, v => { c with hour := v }
  | .day, v => { c with day := v }
  | .month, v => { c with month := v }
  | .day_of_week, v => { c with day_of_week := v }

/-- `ScheduleConfig.is_complete` (`user_data_dataclass.py` lines 57-64):
`all([minute, hour, day, month, day_of_week])`, i.e. every list
non-empty. -/
def ScheduleConfig.is_complete (c : ScheduleConfig) : Bool :=
  !c.minute.isEmpty && !c.hour.isEmpty && !c.day.isEmpty &&
    !c.month.isEmpty && !c.day_of_week.isEmpty

/-- The `ScheduleConfig()` a session starts from, and the value
`ScheduleConfig.reset` (`user_data_dataclass.py` lines 85-93) leaves
behind. -/
def emptyConfig : ScheduleConfig := {}

/-- Decimal digit-string value: helper for `pyInt?`. -/
def digitsVal (ds : List Char) : Option ℕ :=
  if ds = [] then none
  else if ds.all (fun c => c.isDigit)
  then some (ds.foldl (fun n c => n * 10 + (c.toNat - '0'.toNat)) 0)
  else none

/-- Model of python `int()` on optionally signed decimal literals; `none`
models the `ValueError` python raises otherwise.  (python `int()` also
tolerates surrounding whitespace and underscores; every label any claim
here parses is a plain decimal from the declared domains, so that
tolerance is not modelled.) -/
def pyInt? (s : String) : Option ℤ :=
  match s.data with
  | '-' :: ds => (digitsVal ds).map (fun n => -(n : ℤ))
  | ds => (digitsVal ds).map (fun n => (n : ℤ))

/-- Model of python `list.index`: index of the first equal element,
`none` for the `ValueError` raised when the element is absent. -/
def listIndex : List String → String → Option ℕ
  | [], _ => none
  | y :: l, x => if y = x then some 0 else (listIndex l x).map (· + 1)

/-- A python list comprehension whose body may raise: evaluate left to
right, failing as soon as one element fails. -/
def traverseOpt (f : α → Option β) : List α → Option (List β)
  | [] => some []
  | a :: l =>
    match f a with
    | none => none
    | some b => (traverseOpt f l).map (fun bs => b :: bs)

/-- Element conversion used by the five `bld_num_list_*` functions of
`cuckoo_cron_build.py` (lines 11-50): `int(x)` for minute, hour and day;
`month_names.index(x) + 1` for month; `day_of_week_names.index(x)` for
day_of_week. -/
def bld_num_list_elt : Dim → String → Option ℤ
  | .minute, s => pyInt? s
  | .hour, s => pyInt? s
  | .day, s => pyInt? s
  | .month, m => (listIndex month_names m).map (fun i => (i : ℤ) + 1)
  | .day_of_week, w => (listIndex day_of_week_names w).map (fun i => (i : ℤ))

/-- `bld_num_list_methods[key](values)` (`cuckoo_cron_build.py`
lines 44-50): the per-dimension list comprehension. -/
def bld_num_list (d : Dim) (l : List String) : Option (List ℤ) :=
  traverseOpt (bld_num_list_elt d) l

/-- An entry of the `sequences_and_singles` list built by
`bld_cron_token_from_num_list`: python appends either a bare int or a
`(start, end)` tuple. -/
inductive Frag
  | single (n : ℤ)
  | seq (a b : ℤ)
deriving DecidableEq

/-- The flush step of `bld_cron_token_from_num_list`: a window with
`start == end` is flushed as a single, otherwise as a `(start, end)`
pair. -/
def fragOf (s e : ℤ) : Frag := if s = e then .single s else .seq s e

/-- The scan loop of `bld_cron_token_from_num_list` (lines 86-99): extend
the `(current_start, current_end)` window while `num == current_end + 1`,
flush on a break, and flush the final window after the loop. -/
def scanRuns (s e : ℤ) : List ℤ → List Frag
  | [] => [fragOf s e]
  | n :: ns => if n = e + 1 then scanRuns s n ns else fragOf s e :: scanRuns n n ns

/-- `sequences_and_singles` as computed from the sorted number list:
the window starts at the first element. -/
def sequences_and_singles : List ℤ → List Frag
  | [] => []
  | n :: ns => scanRuns n n ns

/-- Rendering of one entry (lines 101-105): `f"{item}"` or
`f"{item[0]}-{item[1]}"`. -/
def fragStr : Frag → String
  | .single n => toString n
  | .seq a b => toString a ++ "-" ++ toString b

/-- The integers an entry mentions (its window boundaries). -/
def fragMems : Frag → List ℤ
  | .single n => [n]
  | .seq a b => [a, b]

/-- The set of integers an entry of the token denotes when parsed back:
`"a"` is the singleton and `"a-b"` the inclusive range. -/
def expandFrag : Frag → Finset ℤ
  | .single n => {n}
  | .seq a b => Finset.Icc a b

/-- Union of the denotations of all entries of a token. -/
def expandFrags (fs : List Frag) : Finset ℤ :=
  fs.foldr (fun f acc => expandFrag f ∪ acc) ∅

/-- Model of python `s.rstrip(c)` for a one-character strip set. -/
def pyRstrip (s : String) (c : Char) : String :=
  ⟨(s.data.reverse.dropWhile (· == c)).reverse⟩

/-- Lines 100-108: append `f"...,"` per entry, then strip the trailing
commas. -/
def renderFrags (fs : List Frag) : String :=
  pyRstrip (fs.foldl (fun acc f => acc ++ fragStr f ++ ",") "") ','

/-- `bld_cron_token_from_num_list` (`cuckoo_cron_build.py` lines 77-109):
`"not set"` on the empty list, otherwise sort and render the run-length
fragments. -/
def bld_cron_token_from_num_list (numbers : List ℤ) : String :=
  if numbers = [] then "not set"
  else renderFrags (sequences_and_singles (pySort pyIntLe numbers))

/-- The fragment list behind the token `bld_cron_token_from_num_list`
renders. -/
def cron_token_fragments (numbers : List ℤ) : List Frag :=
  sequences_and_singles (pySort pyIntLe numbers)

/-- `bld_cron_token_schedule_info` (`cuckoo_cron_build.py` lines 53-74):
`"*"` when the sorted label list equals the sorted full range, otherwise
the compressed token of the converted integers; `none` models the
exception a failing conversion propagates.  The `getattr` failure branch
is unreachable here because `Dim` is a closed enumeration. -/
def bld_cron_token_schedule_info (schedule_info : ScheduleConfig) (key : Dim) : Option String :=
  let values_list := getDim schedule_info key
  if pySort pyStrLe values_list = pySort pyStrLe (full_range_dict key) then some "*"
  else (bld_num_list key values_list).map bld_cron_token_from_num_list

/-- `get_button_keys_labels_callbacks` (`second_level_menu.py`
lines 137-154): the fixed token order minute, hour, day, month,
day_of_week. -/
def button_keys : List Dim := [.minute, .hour, .day, .month, .day_of_week]

/-- The loop of `build_cron_string` (`second_level_menu.py`
lines 157-162): accumulate `token + " "` per key. -/
def build_cron_concat (schedule_info : ScheduleConfig) : List Dim → String → Option String
  | [], acc => some acc
  | k :: ks, acc =>
    match bld_cron_token_schedule_info schedule_info k with
    | none => none
    | some tok => build_cron_concat schedule_info ks (acc ++ tok ++ " ")

/-- `build_cron_string` (`second_level_menu.py` lines 157-162): the five
tokens joined by single spaces (trailing space stripped). -/
def build_cron_string (schedule_info : ScheduleConfig) : Option String :=
  (build_cron_concat schedule_info button_keys "").map (fun s => pyRstrip s ' ')

/-- `re.sub(r"^(hour_|minute_)", "", query_data)` (`second_level_menu.py`
line 309): remove one leading `hour_` or `minute_`. -/
def strip_hour_minute (s : String) : String :=
  if s.data.take 5 = "hour_".data then ⟨s.data.drop 5⟩
  else if s.data.take 7 = "minute_".data then ⟨s.data.drop 7⟩
  else s

/-- `set_sched_parameter_value` (`second_level_menu.py` lines 268-331)
restricted to its effect on the selection state, with the currently
edited dimension passed explicitly (the source reads it from
`user_data[USER_DATA_SELECTED_SCHED_PART]`, which is always one of the
five selector tokens when this handler runs).  A token failing the
allow-list leaves the state unchanged; `NO_VALUES` clears the list;
`ALL_VALUES` installs a copy of the full range; anything else toggles the
prefix-stripped value (python `list.remove` drops the first occurrence,
modelled by `List.erase`). -/
def set_sched_parameter_value (schedule_info : ScheduleConfig) (user_set_key : Dim)
    (query_data : String) : ScheduleConfig :=
  if value_pattern_matches user_set_key query_data then
    if query_data = NO_VALUES then setDim schedule_info user_set_key []
    else if query_data = ALL_VALUES then
      setDim schedule_info user_set_key (full_range_dict user_set_key)
    else
      let accepted_data := strip_hour_minute query_data
      let values_list := getDim schedule_info user_set_key
      if accepted_data ∈ values_list then
        setDim schedule_info user_set_key (values_list.erase accepted_data)
      else setDim schedule_info user_set_key (values_list ++ [accepted_data])
  else schedule_info

/-- A sequence of toggle events applied to the selection state. -/
def runEvents (cfg : ScheduleConfig) : List (Dim × String) → ScheduleConfig
  | [] => cfg
  | e :: es => runEvents (set_sched_parameter_value cfg e.1 e.2) es

/-- Every dimension's list holds only labels of its declared full domain
and holds no duplicates. -/
def ConfigValid (cfg : ScheduleConfig) : Prop :=
  ∀ d : Dim, (∀ s ∈ getDim cfg d, s ∈ full_range_dict d) ∧ (getDim cfg d).Nodup

/-- `ScheduleEntry` (`user_data_dataclass.py` lines 96-185). -/
structure ScheduleEntry where
  device_id : ℤ := 0
  user_id : ℤ := 0
  cron_string : String := ""
  sound_file_path : Option String := none
deriving DecidableEq

/-- The dataclass fields, in declaration order. -/
inductive EntryField
  | device_id
  | user_id
  | cron_string
  | sound_file_path
deriving DecidableEq

/-- `ScheduleEntry.is_set` (`user_data_dataclass.py` lines 123-149):
ints are set when non-zero, strings when non-empty, the optional path
when it is a non-empty string (`None` is unset, and an empty string is
unset through the `isinstance(value, str)` branch). -/
def ScheduleEntry.is_set (e : ScheduleEntry) : EntryField → Bool
  | .device_id => e.device_id != 0
  | .user_id => e.user_id != 0
  | .cron_string => e.cron_string != ""
  | .sound_file_path =>
    match e.sound_file_path with
    | some s => s != ""
    | none => false

/-- `ScheduleEntry.get_unset_fields` (lines 160-167). -/
def ScheduleEntry.get_unset_fields (e : ScheduleEntry) : List EntryField :=
  [EntryField.device_id, EntryField.user_id, EntryField.cron_string,
   EntryField.sound_file_path].filter (fun f => !e.is_set f)

/-- `ScheduleEntry.is_complete` (lines 169-176): no unset field. -/
def ScheduleEntry.is_complete (e : ScheduleEntry) : Bool :=
  e.get_unset_fields.length == 0

/-- Conversation-handler return values: a numeric state,
`ConversationHandler.END`, or python `None` (the fall-through return of
`set_for_play_now`). -/
inductive ConvRet
  | state (n : ℕ)
  | convEnd
  | retNone
deriving DecidableEq

/-- Result of one run of `add_schedule_record`: the (possibly absent)
schedule entry and the selection state afterwards, whether
`create_cron_schedule` was called, and the handler's return value. -/
structure CommitOutcome where
  entry : Option ScheduleEntry
  schedule_info : ScheduleConfig
  persistCalled : Bool
  ret : ConvRet
deriving DecidableEq

/-- `add_schedule_record` (`second_level_menu.py` lines 336-398).
Guards in source order: entry missing, entry incomplete, sound path
`None` — each returns `ConversationHandler.END` untouched and without
calling the persistence collaborator.  Otherwise
`create_cron_schedule(...)` is called; on success the selection state is
reset, on failure only an error message is shown; either way the handler
returns `SCHEDULE_PLAY_MENU`.  (The `query is None` guard is unreachable
under the `callback_query_check` decorator and is not modelled.) -/
def add_schedule_record (entry? : Option ScheduleEntry) (schedule_info : ScheduleConfig)
    (persistOk : Bool) : CommitOutcome :=
  match entry? with
  | none => ⟨none, schedule_info, false, .convEnd⟩
  | some entry =>
    if !entry.is_complete then ⟨some entry, schedule_info, false, .convEnd⟩
    else if entry.sound_file_path = none then ⟨some entry, schedule_info, false, .convEnd⟩
    else if persistOk then ⟨some entry, emptyConfig, true, .state SCHEDULE_PLAY_MENU⟩
    else ⟨some entry, schedule_info, true, .state SCHEDULE_PLAY_MENU⟩

/-- What `display_schedule_menu` shows as the message text: the literal
incompleteness report, or the cron string handed to the external
`get_description` formatter. -/
inductive SchedDescription
  | incomplete
  | described (cron : String)
deriving DecidableEq

/-- `display_schedule_menu` (`second_level_menu.py` lines 72-126)
restricted to its effect on the schedule entry and the displayed
description: the cron string is always computed (`none` propagates the
exception of a failing conversion); only when the configuration
`is_complete()` is it stored into the entry and described, otherwise the
entry is untouched and "Scheduler settings incomplete" is shown.
Keyboard construction is rendering glue and not modelled. -/
def display_schedule_menu (schedule_info : ScheduleConfig) (entry : ScheduleEntry) :
    Option (ScheduleEntry × SchedDescription) :=
  match build_cron_string schedule_info with
  | none => none
  | some cron =>
    if schedule_info.is_complete then some ({ entry with cron_string := cron }, .described cron)
    else some (entry, .incomplete)

/-- Result of one run of `set_for_play_now`: the entry afterwards,
whether `create_cron_schedule` was called, the cron string passed to it,
and the handler's return value. -/
structure PlayNowOutcome where
  entry : ScheduleEntry
  persistCalled : Bool
  persistArg : Option String
  ret : ConvRet
deriving DecidableEq

/-- `set_for_play_now` (`second_level_menu.py` lines 403-471), with the
two external outcomes passed in (`fileExists` for
`os.path.exists(sound_file_path)`, `persistOk` for
`create_cron_schedule`).  A falsy `sound_file_path` returns
`ConversationHandler.END` at once.  The missing-file and missing-id
checks only assign `result = ConversationHandler.END` — the source has no
`return` there — so control falls through: `cron_string` is set to the
sentinel `"0 0 0 0 0"` and `create_cron_schedule` is called regardless.
On a successful call `cron_string` is reset to `""` and
`RECORD_OR_UPLOAD_SOUND_MENU` returned; on a failing call the accumulated
`result` (python `None` when every check passed) is returned. -/
def set_for_play_now (entry : ScheduleEntry) (fileExists persistOk : Bool) : PlayNowOutcome :=
  match entry.sound_file_path with
  | none => ⟨entry, false, none, .convEnd⟩
  | some p =>
    if p = "" then ⟨entry, false, none, .convEnd⟩
    else
      let result₁ : ConvRet := if !fileExists then .convEnd else .retNone
      let result₂ : ConvRet :=
        if entry.user_id = 0 ∨ entry.device_id = 0 then .convEnd else result₁
      let entry₁ := { entry with cron_string := "0 0 0 0 0" }
      if persistOk then
        ⟨{ entry₁ with cron_string := "" }, true, some "0 0 0 0 0",
          .state RECORD_OR_UPLOAD_SOUND_MENU⟩
      else ⟨entry₁, true, some "0 0 0 0 0", result₂⟩

/-! ### The sorting model -/

theorem char_toNat_inj {a b : Char} (h : a.toNat = b.toNat) : a = b :=
  Char.ext (UInt32.ext h)

theorem dataLe_cons_iff {a b : Char} {as bs : List Char} :
    dataLe (a :: as) (b :: bs) = true ↔
      (a.toNat < b.toNat ∨ (a.toNat = b.toNat ∧ dataLe as bs = true)) := by
  simp only [dataLe]
  split_ifs with h₁ h₂
  · simp [h₁]
  · simp
    omega
  · constructor
    · intro h
      exact Or.inr ⟨by omega, h⟩
    · rintro (h | ⟨-, h⟩)
      · omega
      · exact h

theorem dataLe_total (l₁ l₂ : List Char) : dataLe l₁ l₂ = true ∨ dataLe l₂ l₁ = true := by
  induction l₁ generalizing l₂ with
  | nil => exact Or.inl rfl
  | cons a as ih =>
    cases l₂ with
    | nil => exact Or.inr rfl
    | cons b bs =>
      rcases Nat.lt_trichotomy a.toNat b.toNat with h | h | h
      · exact Or.inl (dataLe_cons_iff.mpr (Or.inl h))
      · rcases ih bs with h' | h'
        · exact Or.inl (dataLe_cons_iff.mpr (Or.inr ⟨h, h'⟩))
        · exact Or.inr (dataLe_cons_iff.mpr (Or.inr ⟨h.symm, h'⟩))
      · exact Or.inr (dataLe_cons_iff.mpr (Or.inl h))

theorem dataLe_trans :
    ∀ l₁ l₂ l₃ : List Char, dataLe l₁ l₂ = true → dataLe l₂ l₃ = true → dataLe l₁ l₃ = true
  | [], _, _, _, _ => rfl
  | _ :: _, [], _, h₁, _ => by simp [dataLe] at h₁
  | _ :: _, _ :: _, [], _, h₂ => by simp [dataLe] at h₂
  | a :: as, b :: bs, c :: cs, h₁, h₂ => by
    rw [dataLe_cons_iff] at h₁ h₂ ⊢
    rcases h₁ with h₁ | ⟨e₁, h₁⟩
    · rcases h₂ with h₂ | ⟨e₂, h₂⟩
      · exact Or.inl (by omega)
      · exact Or.inl (by omega)
    · rcases h₂ with h₂ | ⟨e₂, h₂⟩
      · exact Or.inl (by omega)
      · exact Or.inr ⟨by omega, dataLe_trans as bs cs h₁ h₂⟩

theorem dataLe_antisymm :
    ∀ l₁ l₂ : List Char, dataLe l₁ l₂ = true → dataLe l₂ l₁ = true → l₁ = l₂
  | [], [], _, _ => rfl
  | [], _ :: _, _, h₂ => by simp [dataLe] at h₂
  | _ :: _, [], h₁, _ => by simp [dataLe] at h₁
  | a :: as, b :: bs, h₁, h₂ => by
    rw [dataLe_cons_iff] at h₁ h₂
    rcases h₁ with h₁ | ⟨e₁, h₁⟩ <;> rcases h₂ with h₂ | ⟨e₂, h₂⟩
    · omega
    · omega
    · omega
    · rw [char_toNat_inj e₁, dataLe_antisymm as bs h₁ h₂]

theorem pyStrLe_total (s t : String) : pyStrLe s t = true ∨ pyStrLe t s = true :=
  dataLe_total s.data t.data

theorem pyStrLe_trans (s t u : String) (h₁ : pyStrLe s t = true) (h₂ : pyStrLe t u = true) :
    pyStrLe s u = true :=
  dataLe_trans s.data t.data u.data h₁ h₂

theorem pyStrLe_antisymm (s t : String) (h₁ : pyStrLe s t = true) (h₂ : pyStrLe t s = true) :
    s = t :=
  String.ext (dataLe_antisymm s.data t.data h₁ h₂)

theorem pyIntLe_total (a b : ℤ) : pyIntLe a b = true ∨ pyIntLe a b = true ∨ pyIntLe b a = true := by
  simp only [pyIntLe, decide_eq_true_iff]
  omega

theorem pyIntLe_iff (a b : ℤ) : pyIntLe a b = true ↔ a ≤ b := by
  simp [pyIntLe]

theorem insertSorted_perm (le : α → α → Bool) (a : α) (l : List α) :
    (insertSorted le a l).Perm (a :: l) := by
  induction l with
  | nil => exact List.Perm.refl _
  | cons b l ih =>
    by_cases h : le a b = true
    · simp [insertSorted, h]
    · simp only [insertSorted, h, if_neg]
      exact (ih.cons b).trans (List.Perm.swap a b l)

theorem mem_insertSorted (le : α → α → Bool) (a x : α) (l : List α) :
    x ∈ insertSorted le a l ↔ x = a ∨ x ∈ l := by
  rw [(insertSorted_perm le a l).mem_iff]
  simp

theorem insertSorted_pairwise (le : α → α → Bool)
    (htot : ∀ x y, le x y = true ∨ le y x = true)
    (htrans : ∀ x y z, le x y = true → le y z = true → le x z = true)
    (a : α) (l : List α) (hl : l.Pairwise (fun x y => le x y = true)) :
    (insertSorted le a l).Pairwise (fun x y => le x y = true) := by
  induction l with
  | nil => simp [insertSorted]
  | cons b l ih =>
    rcases List.pairwise_cons.mp hl with ⟨hb, hl'⟩
    by_cases h : le a b = true
    · simp only [insertSorted, h, if_pos]
      refine List.pairwise_cons.mpr ⟨?_, hl⟩
      intro x hx
      rcases List.mem_cons.mp hx with rfl | hx'
      · exact h
      · exact htrans a b x h (hb x hx')
    · have hba : le b a = true := (htot a b).resolve_left h
      simp only [insertSorted, h, if_neg]
      refine List.pairwise_cons.mpr ⟨?_, ih hl'⟩
      intro x hx
      rcases (mem_insertSorted le a x l).mp hx with rfl | hx'
      · exact hba
      · exact hb x hx'

theorem pySort_perm (le : α → α → Bool) (l : List α) : (pySort le l).Perm l := by
  induction l with
  | nil => exact List.Perm.refl _
  | cons a l ih => exact (insertSorted_perm le a (pySort le l)).trans (ih.cons a)

theorem pySort_pairwise (le : α → α → Bool)
    (htot : ∀ x y, le x y = true ∨ le y x = true)
    (htrans : ∀ x y z, le x y = true → le y z = true → le x z = true)
    (l : List α) : (pySort le l).Pairwise (fun x y => le x y = true) := by
  induction l with
  | nil => simp [pySort]
  | cons a l ih => exact insertSorted_pairwise le htot htrans a (pySort le l) ih

theorem pySort_eq_pySort_iff (le : α → α → Bool)
    (htot : ∀ x y, le x y = true ∨ le y x = true)
    (htrans : ∀ x y z, le x y = true → le y z = true → le x z = true)
    (hanti : ∀ x y, le x y = true → le y x = true → x = y)
    (l₁ l₂ : List α) (h₁ : l₁.Nodup) (h₂ : l₂.Nodup) :
    pySort le l₁ = pySort le l₂ ↔ ∀ x, x ∈ l₁ ↔ x ∈ l₂ := by
  constructor
  · intro h x
    exact ((pySort_perm le l₁).symm.trans (h ▸ pySort_perm le l₂)).mem_iff
  · intro h
    have p : l₁.Perm l₂ := (List.perm_ext_iff_of_nodup h₁ h₂).mpr h
    have ps : (pySort le l₁).Perm (pySort le l₂) :=
      (pySort_perm le l₁).trans (p.trans (pySort_perm le l₂).symm)
    letI : IsAntisymm α (fun x y => le x y = true) := ⟨hanti⟩
    exact List.eq_of_perm_of_sorted ps (pySort_pairwise le htot htrans l₁)
      (pySort_pairwise le htot htrans l₂)

/-! ### Expansion of the compressed fragments -/

theorem toFinset_of_perm [DecidableEq α] {l₁ l₂ : List α} (h : l₁.Perm l₂) :
    l₁.toFinset = l₂.toFinset := by
  ext x
  simp [List.mem_toFinset, h.mem_iff]

theorem expandFrag_fragOf {s e : ℤ} (h : s ≤ e) : expandFrag (fragOf s e) = Finset.Icc s e := by
  unfold fragOf
  by_cases hse : s = e
  · subst hse
    simp [expandFrag, Finset.Icc_self]
  · simp [hse, expandFrag]

theorem expandFrags_nil : expandFrags [] = ∅ := rfl

theorem expandFrags_cons (f : Frag) (fs : List Frag) :
    expandFrags (f :: fs) = expandFrag f ∪ expandFrags fs := rfl

theorem expandFrags_scanRuns :
    ∀ (ns : List ℤ) (s e : ℤ), s ≤ e → List.Chain (· < ·) e ns →
      expandFrags (scanRuns s e ns) = Finset.Icc s e ∪ ns.toFinset
  | [], s, e, hse, _ => by
    simp [scanRuns, expandFrags_cons, expandFrags_nil, expandFrag_fragOf hse]
  | n :: ns, s, e, hse, hchain => by
    rcases List.chain_cons.mp hchain with ⟨hen, hchain'⟩
    by_cases h : n = e + 1
    · simp only [scanRuns, if_pos h]
      rw [expandFrags_scanRuns ns s n (by omega) hchain']
      have hins : Finset.Icc s n = insert n (Finset.Icc s e) := by
        ext x
        simp only [Finset.mem_Icc, Finset.mem_insert]
        omega
      rw [hins, List.toFinset_cons]
      ext x
      simp only [Finset.mem_union, Finset.mem_insert, Finset.mem_Icc, List.mem_toFinset]
      tauto
    · simp only [scanRuns, if_neg h]
      rw [expandFrags_cons, expandFrags_scanRuns ns n n le_rfl hchain',
        expandFrag_fragOf hse, Finset.Icc_self, List.toFinset_cons]
      ext x
      simp only [Finset.mem_union, Finset.mem_insert, Finset.mem_Icc, List.mem_toFinset,
        Finset.mem_singleton]
      try tauto

theorem pySort_int_pairwise_lt (l : List ℤ) (hnd : l.Nodup) :
    (pySort pyIntLe l).Pairwise (fun a b : ℤ => a < b) := by
  have htot : ∀ x y : ℤ, pyIntLe x y = true ∨ pyIntLe y x = true := by
    intro x y
    simp only [pyIntLe, decide_eq_true_iff]
    omega
  have htrans : ∀ x y z : ℤ, pyIntLe x y = true → pyIntLe y z = true → pyIntLe x z = true := by
    intro x y z h₁ h₂
    simp only [pyIntLe, decide_eq_true_iff] at h₁ h₂ ⊢
    omega
  have hp := pySort_pairwise pyIntLe htot htrans l
  have hnd' : (pySort pyIntLe l).Nodup := (pySort_perm pyIntLe l).nodup_iff.mpr hnd
  exact (hp.and hnd').imp (fun h => lt_of_le_of_ne ((pyIntLe_iff _ _).mp h.1) h.2)

theorem expand_cron_token_fragments (l : List ℤ) (hnd : l.Nodup) (hne : l ≠ []) :
    expandFrags (cron_token_fragments l) = l.toFinset := by
  have hlt := pySort_int_pairwise_lt l hnd
  have hperm := pySort_perm pyIntLe l
  rcases hsort : pySort pyIntLe l with _ | ⟨m, ms⟩
  · rw [hsort] at hperm
    exact absurd hperm.symm.eq_nil hne
  · rw [hsort] at hlt hperm
    have hchain : List.Chain (· < ·) m ms := List.chain_iff_pairwise.mpr hlt
    unfold cron_token_fragments
    rw [hsort]
    show expandFrags (scanRuns m m ms) = l.toFinset
    rw [expandFrags_scanRuns ms m m le_rfl hchain, Finset.Icc_self,
      ← toFinset_of_perm hperm, List.toFinset_cons, ← Finset.insert_eq]

/-! ### The rendered token of bounded integers is never the wildcard -/

theorem toString_int (n : ℤ) : toString n = Int.repr n := rfl

theorem repr_nat_facts :
    ∀ n : ℕ, n < 61 →
      (Int.repr (n : ℤ)).data ≠ [] ∧ (Int.repr (n : ℤ)).data.head? ≠ some '*' := by
  decide

theorem repr_int_facts (m : ℤ) (h0 : 0 ≤ m) (h60 : m ≤ 60) :
    (Int.repr m).data ≠ [] ∧ (Int.repr m).data.head? ≠ some '*' := by
  obtain ⟨n, rfl⟩ := Int.eq_ofNat_of_zero_le h0
  have hn : n ≤ 60 := by exact_mod_cast h60
  exact repr_nat_facts n (by omega)

theorem fragStr_data (f : Frag) :
    ∃ a r, a ∈ fragMems f ∧ (fragStr f).data = (Int.repr a).data ++ r := by
  cases f with
  | single n =>
    exact ⟨n, [], by simp [fragMems], by simp [fragStr, toString_int]⟩
  | seq a b =>
    refine ⟨a, ("-" ++ toString b).data, by simp [fragMems], ?_⟩
    simp [fragStr, toString_int, String.data_append]

theorem render_foldl_data :
    ∀ (fs : List Frag) (acc : String), ∃ r,
      (fs.foldl (fun a f => a ++ fragStr f ++ ",") acc).data = acc.data ++ r
  | [], acc => ⟨[], by simp⟩
  | f :: fs, acc => by
    obtain ⟨r, hr⟩ := render_foldl_data fs (acc ++ fragStr f ++ ",")
    refine ⟨(fragStr f).data ++ [','] ++ r, ?_⟩
    rw [List.foldl_cons, hr]
    simp [String.data_append]

theorem pyRstrip_data_append (s : String) (c : Char) :
    ∃ t, s.data = (pyRstrip s c).data ++ t := by
  refine ⟨(s.data.reverse.takeWhile (· == c)).reverse, ?_⟩
  conv_lhs => rw [← s.data.reverse_reverse,
    ← List.takeWhile_append_dropWhile (· == c) s.data.reverse, List.reverse_append]
  rfl

theorem renderFrags_ne_star (fs : List Frag) (hne : fs ≠ [])
    (hb : ∀ f ∈ fs, ∀ x ∈ fragMems f, 0 ≤ x ∧ x ≤ 60) :
    renderFrags fs ≠ "*" := by
  intro hstar
  rcases fs with _ | ⟨f, fs'⟩
  · exact hne rfl
  obtain ⟨a, r, ha, hdata⟩ := fragStr_data f
  obtain ⟨ha0, ha60⟩ := hb f (List.mem_cons_self f fs') a ha
  obtain ⟨hrepr_ne, hrepr_head⟩ := repr_int_facts a ha0 ha60
  obtain ⟨r₂, hr₂⟩ := render_foldl_data fs' ("" ++ fragStr f ++ ",")
  obtain ⟨t, ht⟩ :=
    pyRstrip_data_append ((f :: fs').foldl (fun a g => a ++ fragStr g ++ ",") "") ','
  rw [List.foldl_cons] at ht
  rw [hr₂] at ht
  have hstar_data : (pyRstrip ((f :: fs').foldl (fun a g => a ++ fragStr g ++ ",") "") ',').data
      = ['*'] := by
    have : renderFrags (f :: fs') = "*" := hstar
    unfold renderFrags at this
    rw [this]
  rw [List.foldl_cons] at hstar_data
  rw [hstar_data] at ht
  rcases hcd : (Int.repr a).data with _ | ⟨c, cs⟩
  · exact hrepr_ne hcd
  have hc_ne : c ≠ '*' := by
    intro hc
    apply hrepr_head
    rw [hcd, hc]
    rfl
  have hacc : ("" ++ fragStr f ++ ",").data = c :: (cs ++ r ++ [',']) := by
    simp [String.data_append, hdata, hcd]
  rw [hacc] at ht
  simp only [List.cons_append] at ht
  exact hc_ne (List.cons.injEq .. |>.mp ht.symm).1.symm

theorem scanRuns_ne_nil : ∀ (ns : List ℤ) (s e : ℤ), scanRuns s e ns ≠ []
  | [], _, _ => by simp [scanRuns]
  | n :: ns, s, e => by
    simp only [scanRuns]
    split
    · exact scanRuns_ne_nil ns s n
    · simp

theorem fragOf_mems {s e x : ℤ} (hx : x ∈ fragMems (fragOf s e)) : x = s ∨ x = e := by
  unfold fragOf at hx
  split at hx <;> simp [fragMems] at hx <;> tauto

theorem scanRuns_mems :
    ∀ (ns : List ℤ) (s e : ℤ), ∀ f ∈ scanRuns s e ns, ∀ x ∈ fragMems f,
      x = s ∨ x = e ∨ x ∈ ns
  | [], s, e, f, hf, x, hx => by
    simp only [scanRuns, List.mem_singleton] at hf
    subst hf
    rcases fragOf_mems hx with h | h <;> tauto
  | n :: ns, s, e, f, hf, x, hx => by
    simp only [scanRuns] at hf
    split at hf
    · rcases scanRuns_mems ns s n f hf x hx with h | h | h <;> simp [h]
    · rcases List.mem_cons.mp hf with rfl | hf'
      · rcases fragOf_mems hx with h | h <;> tauto
      · rcases scanRuns_mems ns n n f hf' x hx with h | h | h <;> simp [h]

theorem bld_cron_token_ne_star (l : List ℤ) (hb : ∀ m ∈ l, 0 ≤ m ∧ m ≤ 60) :
    bld_cron_token_from_num_list l ≠ "*" := by
  by_cases hl : l = []
  · simp only [bld_cron_token_from_num_list, if_pos hl]
    decide
  · simp only [bld_cron_token_from_num_list, if_neg hl]
    have hperm := pySort_perm pyIntLe l
    rcases hsort : pySort pyIntLe l with _ | ⟨m, ms⟩
    · rw [hsort] at hperm
      exact absurd hperm.symm.eq_nil hl
    · rw [hsort] at hperm
      show renderFrags (scanRuns m m ms) ≠ "*"
      apply renderFrags_ne_star _ (scanRuns_ne_nil ms m m)
      intro f hf x hx
      have hxl : x ∈ l := by
        rcases scanRuns_mems ms m m f hf x hx with h | h | h
        · exact hperm.mem_iff.mp (by simp [h])
        · exact hperm.mem_iff.mp (by simp [h])
        · exact hperm.mem_iff.mp (by simp [h])
      exact hb x hxl

/-! ### Label conversion succeeds on domain labels, with bounded values -/

theorem elt_ok :
    ∀ d : Dim, ∀ s ∈ full_range_dict d,
      (bld_num_list_elt d s).map (fun n => decide (0 ≤ n ∧ n ≤ 60)) = some true := by
  intro d
  cases d <;> decide

theorem map_decide_some {o : Option ℤ}
    (h : o.map (fun n => decide (0 ≤ n ∧ n ≤ 60)) = some true) :
    ∃ n, o = some n ∧ 0 ≤ n ∧ n ≤ 60 := by
  cases o with
  | none => simp at h
  | some n =>
    refine ⟨n, rfl, ?_⟩
    simpa using h

theorem traverseOpt_all_some (f : α → Option β) :
    ∀ l : List α, (∀ x ∈ l, (f x).isSome) →
      ∃ ys, traverseOpt f l = some ys ∧ ∀ y ∈ ys, ∃ x ∈ l, f x = some y
  | [], _ => ⟨[], rfl, by simp⟩
  | a :: l, h => by
    obtain ⟨b, hb⟩ := Option.isSome_iff_exists.mp (h a (List.mem_cons_self a l))
    obtain ⟨ys, hys, hmem⟩ :=
      traverseOpt_all_some f l (fun x hx => h x (List.mem_cons_of_mem a hx))
    refine ⟨b :: ys, ?_, ?_⟩
    · simp [traverseOpt, hb, hys]
    · intro y hy
      rcases List.mem_cons.mp hy with rfl | hy'
      · exact ⟨a, List.mem_cons_self a l, hb⟩
      · obtain ⟨x, hx, hfx⟩ := hmem y hy'
        exact ⟨x, List.mem_cons_of_mem a hx, hfx⟩

theorem bld_num_list_some (d : Dim) (sel : List String)
    (hsub : ∀ s ∈ sel, s ∈ full_range_dict d) :
    ∃ ints, bld_num_list d sel = some ints ∧ ∀ n ∈ ints, 0 ≤ n ∧ n ≤ 60 := by
  have hall : ∀ s ∈ sel, (bld_num_list_elt d s).isSome := by
    intro s hs
    obtain ⟨n, hn, -⟩ := map_decide_some (elt_ok d s (hsub s hs))
    simp [hn]
  obtain ⟨ints, hints, hmem⟩ := traverseOpt_all_some (bld_num_list_elt d) sel hall
  refine ⟨ints, hints, ?_⟩
  intro n hn
  obtain ⟨s, hs, hfs⟩ := hmem n hn
  obtain ⟨n', hn', hb⟩ := map_decide_some (elt_ok d s (hsub s hs))
  rw [hfs] at hn'
  injection hn' with h
  cases h
  exact hb

/-! ### Facts about the declared full domains and the allow-lists -/

theorem full_range_nodup : ∀ d : Dim, (full_range_dict d).Nodup := by
  intro d
  cases d <;> decide

theorem full_range_ne_nil : ∀ d : Dim, full_range_dict d ≠ [] := by
  intro d
  cases d <;> decide

theorem no_values_matches : ∀ d : Dim, value_pattern_matches d NO_VALUES = true := by
  intro d
  cases d <;> decide

theorem all_values_matches : ∀ d : Dim, value_pattern_matches d ALL_VALUES = true := by
  intro d
  cases d <;> decide

/-! ### The selection state and its transitions -/

theorem getDim_setDim_self (c : ScheduleConfig) (d : Dim) (l : List String) :
    getDim (setDim c d l) d = l := by
  cases d <;> rfl

theorem getDim_setDim_ne (c : ScheduleConfig) (d d' : Dim) (l : List String) (h : d' ≠ d) :
    getDim (setDim c d l) d' = getDim c d' := by
  cases d <;> cases d' <;> first | rfl | exact absurd rfl h

theorem set_sched_of_not_matches (c : ScheduleConfig) (d : Dim) (tok : String)
    (h : value_pattern_matches d tok = false) : set_sched_parameter_value c d tok = c := by
  simp [set_sched_parameter_value, h]

theorem set_sched_no_values (c : ScheduleConfig) (d : Dim) :
    set_sched_parameter_value c d NO_VALUES = setDim c d [] := by
  simp [set_sched_parameter_value, no_values_matches d]

theorem set_sched_all_values (c : ScheduleConfig) (d : Dim) :
    set_sched_parameter_value c d ALL_VALUES = setDim c d (full_range_dict d) := by
  have hne : ALL_VALUES ≠ NO_VALUES := by decide
  simp [set_sched_parameter_value, all_values_matches d, hne]

theorem set_sched_toggle (c : ScheduleConfig) (d : Dim) (tok : String)
    (hpat : value_pattern_matches d tok = true) (h1 : tok ≠ NO_VALUES)
    (h0 : tok ≠ ALL_VALUES) :
    set_sched_parameter_value c d tok =
      (if strip_hour_minute tok ∈ getDim c d
       then setDim c d ((getDim c d).erase (strip_hour_minute tok))
       else setDim c d (getDim c d ++ [strip_hour_minute tok])) := by
  simp [set_sched_parameter_value, hpat, h1, h0]

/-! ### The schedule entry -/

theorem entry_incomplete_of_cron_empty (e : ScheduleEntry) (h : e.cron_string = "") :
    e.is_complete = false := by
  have hmem : EntryField.cron_string ∈ e.get_unset_fields := by
    apply List.mem_filter.mpr
    refine ⟨by simp, ?_⟩
    simp [ScheduleEntry.is_set, h]
  unfold ScheduleEntry.is_complete
  rw [beq_eq_false_iff_ne]
  intro hlen
  exact List.ne_nil_of_mem hmem (List.length_eq_zero.mp hlen)

/-! ### The assembled cron string exists for domain-valid selections -/

theorem bld_token_isSome (cfg : ScheduleConfig) (d : Dim)
    (hsub : ∀ s ∈ getDim cfg d, s ∈ full_range_dict d) :
    (bld_cron_token_schedule_info cfg d).isSome := by
  unfold bld_cron_token_schedule_info
  by_cases hstar : pySort pyStrLe (getDim cfg d) = pySort pyStrLe (full_range_dict d)
  · simp [hstar]
  · obtain ⟨ints, hints, -⟩ := bld_num_list_some d (getDim cfg d) hsub
    simp [hstar, hints]

theorem build_cron_concat_some (cfg : ScheduleConfig) :
    ∀ ks : List Dim, (∀ k ∈ ks, (bld_cron_token_schedule_info cfg k).isSome) →
      ∀ acc, ∃ s, build_cron_concat cfg ks acc = some s
  | [], _, acc => ⟨acc, rfl⟩
  | k :: ks, h, acc => by
    obtain ⟨tok, htok⟩ := Option.isSome_iff_exists.mp (h k (List.mem_cons_self k ks))
    obtain ⟨s, hs⟩ := build_cron_concat_some cfg ks
      (fun k' hk' => h k' (List.mem_cons_of_mem k hk')) (acc ++ tok ++ " ")
    exact ⟨s, by simp [build_cron_concat, htok, hs]⟩

theorem build_cron_string_some (cfg : ScheduleConfig) (hvalid : ConfigValid cfg) :
    ∃ s, build_cron_string cfg = some s := by
  obtain ⟨s, hs⟩ := build_cron_concat_some cfg button_keys
    (fun k _ => bld_token_isSome cfg k (hvalid k).1) ""
  exact ⟨pyRstrip s ' ', by simp [build_cron_string, hs]⟩

theorem matches_mem {d : Dim} {tok : String} (h : value_pattern_matches d tok = true) :
    tok ∈ pattern_language d :=
  of_decide_eq_true h

theorem hour_strip_ne_24 : ∀ tok ∈ pattern_language Dim.hour, strip_hour_minute tok ≠ "24" := by
  decide

theorem set_sched_frame (cfg : ScheduleConfig) (d d' : Dim) (tok : String) (h : d' ≠ d) :
    getDim (set_sched_parameter_value cfg d tok) d' = getDim cfg d' := by
  by_cases hpat : value_pattern_matches d tok = true
  · by_cases h1 : tok = NO_VALUES
    · subst h1
      rw [set_sched_no_values, getDim_setDim_ne cfg d d' _ h]
    · by_cases h0 : tok = ALL_VALUES
      · subst h0
        rw [set_sched_all_values, getDim_setDim_ne cfg d d' _ h]
      · rw [set_sched_toggle cfg d tok hpat h1 h0]
        by_cases hmem : strip_hour_minute tok ∈ getDim cfg d
        · rw [if_pos hmem, getDim_setDim_ne cfg d d' _ h]
        · rw [if_neg hmem, getDim_setDim_ne cfg d d' _ h]
  · rw [set_sched_of_not_matches cfg d tok (by simpa using hpat)]

/-! ### The claims -/

/-- C1: round-trip law of the range compressor.  For every non-empty
finite set of integers (given as a duplicate-free list, the iteration
order of the python set handed to `bld_cron_token_from_num_list`), the
comma-separated fragments behind the produced token — `"a"` denoting the
singleton set and `"a-b"` the inclusive range — expand to exactly the
input set, and the token is precisely the comma-joined rendering of those
fragments. -/
theorem c1_compress_roundtrip (l : List ℤ) (hnd : l.Nodup) (hne : l ≠ []) :
    expandFrags (cron_token_fragments l) = l.toFinset ∧
      bld_cron_token_from_num_list l = renderFrags (cron_token_fragments l) := by
  refine ⟨expand_cron_token_fragments l hnd hne, ?_⟩
  simp [bld_cron_token_from_num_list, cron_token_fragments, hne]

theorem c1_compress_roundtrip_witness :
    ([0, 1, 2, 5, 7, 8, 9] : List ℤ).Nodup ∧ ([0, 1, 2, 5, 7, 8, 9] : List ℤ) ≠ [] ∧
      (expandFrags (cron_token_fragments [0, 1, 2, 5, 7, 8, 9]) =
          ([0, 1, 2, 5, 7, 8, 9] : List ℤ).toFinset ∧
        bld_cron_token_from_num_list [0, 1, 2, 5, 7, 8, 9] =
          renderFrags (cron_token_fragments [0, 1, 2, 5, 7, 8, 9])) :=
  ⟨by decide, by decide, c1_compress_roundtrip [0, 1, 2, 5, 7, 8, 9] (by decide) (by decide)⟩

/-- C2: CronToken classification.  For every dimension and every
duplicate-free selection over that dimension's domain,
`bld_cron_token_schedule_info` succeeds; it yields `"*"` exactly when the
selection, compared as a set, equals the full canonical domain; it yields
`"not set"` on the empty selection; and on any non-full selection it
yields the compressed token of the converted canonical integers. -/
theorem c2_cron_token_classification (cfg : ScheduleConfig) (d : Dim)
    (hnd : (getDim cfg d).Nodup) (hsub : ∀ s ∈ getDim cfg d, s ∈ full_range_dict d) :
    (bld_cron_token_schedule_info cfg d).isSome = true ∧
      (bld_cron_token_schedule_info cfg d = some "*" ↔
        (getDim cfg d).toFinset = (full_range_dict d).toFinset) ∧
      (getDim cfg d = [] → bld_cron_token_schedule_info cfg d = some "not set") ∧
      ((getDim cfg d).toFinset ≠ (full_range_dict d).toFinset →
        bld_cron_token_schedule_info cfg d =
          (bld_num_list d (getDim cfg d)).map bld_cron_token_from_num_list) := by
  have hsorted_iff :
      (pySort pyStrLe (getDim cfg d) = pySort pyStrLe (full_range_dict d)) ↔
        (getDim cfg d).toFinset = (full_range_dict d).toFinset := by
    rw [pySort_eq_pySort_iff pyStrLe pyStrLe_total pyStrLe_trans pyStrLe_antisymm
      _ _ hnd (full_range_nodup d)]
    constructor
    · intro h
      ext x
      simpa using h x
    · intro h x
      have hx := Finset.ext_iff.mp h x
      simpa using hx
  by_cases hstar : pySort pyStrLe (getDim cfg d) = pySort pyStrLe (full_range_dict d)
  · have hset : (getDim cfg d).toFinset = (full_range_dict d).toFinset := hsorted_iff.mp hstar
    have heq : bld_cron_token_schedule_info cfg d = some "*" := by
      unfold bld_cron_token_schedule_info
      simp [hstar]
    refine ⟨by simp [heq], by simp [heq, hset], ?_, fun hne => absurd hset hne⟩
    intro hempty
    exfalso
    obtain ⟨x, hx⟩ := List.exists_mem_of_ne_nil _ (full_range_ne_nil d)
    have hx' : x ∈ (full_range_dict d).toFinset := List.mem_toFinset.mpr hx
    rw [← hset, hempty] at hx'
    simp at hx'
  · have hset_ne : (getDim cfg d).toFinset ≠ (full_range_dict d).toFinset :=
      fun h => hstar (hsorted_iff.mpr h)
    obtain ⟨ints, hints, hb⟩ := bld_num_list_some d (getDim cfg d) hsub
    have heq : bld_cron_token_schedule_info cfg d = some (bld_cron_token_from_num_list ints) := by
      unfold bld_cron_token_schedule_info
      simp [hstar, hints]
    have hne_star : bld_cron_token_from_num_list ints ≠ "*" := bld_cron_token_ne_star ints hb
    refine ⟨by simp [heq], ?_, ?_, fun _ => by rw [heq, hints]; rfl⟩
    · constructor
      · intro h
        rw [heq] at h
        injection h with h'
        exact absurd h' hne_star
      · intro h
        exact absurd h hset_ne
    · intro hempty
      rw [hempty] at hints
      have : ints = [] := by
        have h0 : bld_num_list d [] = some [] := rfl
        rw [h0] at hints
        injection hints with h'
        exact h'.symm
      rw [heq, this]
      decide

theorem c2_cron_token_classification_witness :
    (getDim { emptyConfig with minute := ["0", "30"] } Dim.minute).Nodup ∧
      (∀ s ∈ getDim { emptyConfig with minute := ["0", "30"] } Dim.minute,
        s ∈ full_range_dict Dim.minute) ∧
      ((bld_cron_token_schedule_info { emptyConfig with minute := ["0", "30"] }
            Dim.minute).isSome = true ∧
        (bld_cron_token_schedule_info { emptyConfig with minute := ["0", "30"] } Dim.minute =
            some "*" ↔
          (getDim { emptyConfig with minute := ["0", "30"] } Dim.minute).toFinset =
            (full_range_dict Dim.minute).toFinset) ∧
        (getDim { emptyConfig with minute := ["0", "30"] } Dim.minute = [] →
          bld_cron_token_schedule_info { emptyConfig with minute := ["0", "30"] } Dim.minute =
            some "not set") ∧
        ((getDim { emptyConfig with minute := ["0", "30"] } Dim.minute).toFinset ≠
            (full_range_dict Dim.minute).toFinset →
          bld_cron_token_schedule_info { emptyConfig with minute := ["0", "30"] } Dim.minute =
            (bld_num_list Dim.minute
                (getDim { emptyConfig with minute := ["0", "30"] } Dim.minute)).map
              bld_cron_token_from_num_list)) :=
  ⟨by decide, by decide,
    c2_cron_token_classification { emptyConfig with minute := ["0", "30"] } Dim.minute
      (by decide) (by decide)⟩

/-- C3: toggle transition semantics.  For every dimension being edited
and every incoming control token passing its allow-list pattern, the new
selection list is the full canonical domain when the token is the
`ALL_VALUES` sentinel `"0"`, empty when it is the `NO_VALUES` sentinel
`"-1"`, and otherwise the old list with the prefix-stripped value removed
when it was a member and appended when it was not. -/
theorem c3_toggle_semantics (cfg : ScheduleConfig) (d : Dim) (tok : String)
    (hpat : value_pattern_matches d tok = true) :
    getDim (set_sched_parameter_value cfg d tok) d =
      (if tok = ALL_VALUES then full_range_dict d
       else if tok = NO_VALUES then []
       else if strip_hour_minute tok ∈ getDim cfg d
         then (getDim cfg d).erase (strip_hour_minute tok)
         else getDim cfg d ++ [strip_hour_minute tok]) := by
  by_cases h1 : tok = NO_VALUES
  · subst h1
    rw [set_sched_no_values, getDim_setDim_self, if_neg (by decide), if_pos rfl]
  · by_cases h0 : tok = ALL_VALUES
    · subst h0
      rw [set_sched_all_values, getDim_setDim_self, if_pos rfl]
    · rw [set_sched_toggle cfg d tok hpat h1 h0, if_neg h0, if_neg h1]
      by_cases hmem : strip_hour_minute tok ∈ getDim cfg d
      · rw [if_pos hmem, if_pos hmem, getDim_setDim_self]
      · rw [if_neg hmem, if_neg hmem, getDim_setDim_self]

theorem c3_toggle_semantics_witness :
    value_pattern_matches Dim.day "5" = true ∧
      getDim (set_sched_parameter_value emptyConfig Dim.day "5") Dim.day =
        (if "5" = ALL_VALUES then full_range_dict Dim.day
         else if "5" = NO_VALUES then []
         else if strip_hour_minute "5" ∈ getDim emptyConfig Dim.day
           then (getDim emptyConfig Dim.day).erase (strip_hour_minute "5")
           else getDim emptyConfig Dim.day ++ [strip_hour_minute "5"]) :=
  ⟨by decide, c3_toggle_semantics emptyConfig Dim.day "5" (by decide)⟩

/-- C4: the domain-membership invariant fails on the code as written:
python's `$` anchor also matches just before a trailing newline, so the
day dimension's allow-list regex accepts the token `"31\n"`, and the
toggle transition then appends the label `"31\n"`, which is not a member
of the day dimension's declared full domain `str(1)..str(31)`. -/
theorem c4_domain_invariant_fails :
    value_pattern_matches Dim.day "31\n" = true ∧
      getDim (runEvents emptyConfig [(Dim.day, "31\n")]) Dim.day = ["31\n"] ∧
      "31\n" ∉ full_range_dict Dim.day :=
  ⟨by decide, by decide, by decide⟩

/-- C5: end-to-end cron assembly.  With minute `{"0","30"}`, hour
`{"9"}`, day the full 1..31 domain, month all twelve month names and
day_of_week Monday..Friday, the assembled cron string — the five tokens
joined by single spaces in the fixed order minute, hour, day, month,
day_of_week — is exactly `"0,30 9 * * 1-5"`. -/
theorem c5_cron_assembly :
    build_cron_string
        { minute := ["0", "30"], hour := ["9"], day := full_range_dict Dim.day,
          month := month_names,
          day_of_week := ["Monday", "Tuesday", "Wednesday", "Thursday", "Friday"] } =
      some "0,30 9 * * 1-5" := by
  decide

/-- C6: commit failure atomicity fails on the code.  In `set_for_play_now`
the missing-file check only assigns `result = ConversationHandler.END`
without returning, so a commit whose sound file does not exist still
calls `create_cron_schedule` — a persistence record is created with the
sentinel cron string — and the handler returns the success menu; and on a
failing persistence call the entry's `cron_string` is left mutated to
`"0 0 0 0 0"` instead of keeping its prior value.  This theorem evaluates
the handler at such failing inputs. -/
theorem c6_missing_file_still_commits :
    (set_for_play_now ⟨3, 7, "", some "alarm.mp3"⟩ false true).persistCalled = true ∧
      (set_for_play_now ⟨3, 7, "", some "alarm.mp3"⟩ false true).persistArg =
        some "0 0 0 0 0" ∧
      (set_for_play_now ⟨3, 7, "", some "alarm.mp3"⟩ false true).ret =
        ConvRet.state RECORD_OR_UPLOAD_SOUND_MENU ∧
      (set_for_play_now ⟨3, 7, "prior", some "alarm.mp3"⟩ true false).entry.cron_string =
        "0 0 0 0 0" :=
  ⟨by decide, by decide, by decide, by decide⟩

/-- C7 as literally stated is falsified by the code: the commit guard in
`add_schedule_record` checks the *entry's* `is_complete()`, not the
configuration's.  The success path resets only `schedule_info` and keeps
the entry's cron string (and clearing a dimension after the menu has
stored a cron string leaves the same shape), so a commit attempt arriving
with the configuration incomplete (here the empty one — day_of_month
unset) but a stale-complete entry is not refused: `create_cron_schedule`
is called and the success state returned. -/
theorem c7_stale_entry_counterexample :
    ScheduleConfig.is_complete emptyConfig = false ∧
      (add_schedule_record (some ⟨3, 7, "0,30 9 * * 1-5", some "alarm.mp3"⟩) emptyConfig
          true).persistCalled = true ∧
      (add_schedule_record (some ⟨3, 7, "0,30 9 * * 1-5", some "alarm.mp3"⟩) emptyConfig
          true).ret = ConvRet.state SCHEDULE_PLAY_MENU :=
  ⟨by decide, by decide, by decide⟩

/-- C7 (amended): the guard the code implements is on the schedule
*entry*.  Every commit attempt made while the entry is incomplete is
refused: `add_schedule_record` returns `ConversationHandler.END`, issues
no persistence call and changes neither the entry nor the selection
state; an entry whose cron string was never stored is incomplete, so this
covers every configuration that was never complete; and while the
configuration is incomplete the menu reports "Scheduler settings
incomplete" and does not construct a cron string into the entry.  (A
stale entry left complete by an earlier completed configuration is the
exception exhibited by the counterexample.) -/
theorem c7_incomplete_guard (cfg : ScheduleConfig) (entry : ScheduleEntry) (persistOk : Bool)
    (hvalid : ConfigValid cfg) (hcfg : cfg.is_complete = false)
    (hentry : entry.is_complete = false) :
    add_schedule_record (some entry) cfg persistOk =
        ⟨some entry, cfg, false, ConvRet.convEnd⟩ ∧
      display_schedule_menu cfg entry = some (entry, SchedDescription.incomplete) ∧
      (entry.cron_string = "" → entry.is_complete = false) := by
  refine ⟨?_, ?_, fun hcron => entry_incomplete_of_cron_empty entry hcron⟩
  · simp [add_schedule_record, hentry]
  · obtain ⟨s, hs⟩ := build_cron_string_some cfg hvalid
    simp [display_schedule_menu, hs, hcfg]

theorem c7_incomplete_guard_witness :
    ConfigValid emptyConfig ∧ ScheduleConfig.is_complete emptyConfig = false ∧
      ScheduleEntry.is_complete ⟨3, 7, "", some "alarm.mp3"⟩ = false ∧
      (add_schedule_record (some ⟨3, 7, "", some "alarm.mp3"⟩) emptyConfig true =
          ⟨some ⟨3, 7, "", some "alarm.mp3"⟩, emptyConfig, false, ConvRet.convEnd⟩ ∧
        display_schedule_menu emptyConfig ⟨3, 7, "", some "alarm.mp3"⟩ =
          some (⟨3, 7, "", some "alarm.mp3"⟩, SchedDescription.incomplete) ∧
        ((⟨3, 7, "", some "alarm.mp3"⟩ : ScheduleEntry).cron_string = "" →
          ScheduleEntry.is_complete ⟨3, 7, "", some "alarm.mp3"⟩ = false)) := by
  have hv : ConfigValid emptyConfig := by
    intro d
    cases d <;> exact ⟨by decide, by decide⟩
  exact ⟨hv, by decide, by decide,
    c7_incomplete_guard emptyConfig ⟨3, 7, "", some "alarm.mp3"⟩ true hv (by decide) (by decide)⟩

/-- C8: immediate-play frame.  Whatever the entry's prior cron string
(the handler never reads the dimension selections, the compressor or the
codec — its model takes no `ScheduleConfig` at all), a successful
immediate-play commit passes exactly the sentinel `"0 0 0 0 0"` to the
persistence collaborator, and afterwards only the `cron_string` field is
cleared to `""` while `device_id`, `user_id` and the sound-file reference
keep their values. -/
theorem c8_play_now_frame (entry : ScheduleEntry) (p : String)
    (hp : entry.sound_file_path = some p) (hpne : p ≠ "") :
    set_for_play_now entry true true =
      ⟨{ entry with cron_string := "" }, true, some "0 0 0 0 0",
        ConvRet.state RECORD_OR_UPLOAD_SOUND_MENU⟩ := by
  simp [set_for_play_now, hp, hpne]

theorem c8_play_now_frame_witness :
    (⟨3, 7, "stale 1-5", some "alarm.mp3"⟩ : ScheduleEntry).sound_file_path =
        some "alarm.mp3" ∧
      "alarm.mp3" ≠ "" ∧
      set_for_play_now ⟨3, 7, "stale 1-5", some "alarm.mp3"⟩ true true =
        ⟨{ (⟨3, 7, "stale 1-5", some "alarm.mp3"⟩ : ScheduleEntry) with cron_string := "" },
          true, some "0 0 0 0 0", ConvRet.state RECORD_OR_UPLOAD_SOUND_MENU⟩ :=
  ⟨rfl, by decide,
    c8_play_now_frame ⟨3, 7, "stale 1-5", some "alarm.mp3"⟩ "alarm.mp3" rfl (by decide)⟩

/-- C9: toggle is its own inverse.  For every dimension, every
duplicate-free current selection and every ordinary (non-sentinel) token
passing the allow-list, applying the toggle transition twice with that
token yields a selection with exactly the membership of the original. -/
theorem c9_toggle_involutive (cfg : ScheduleConfig) (d : Dim) (tok : String)
    (hpat : value_pattern_matches d tok = true) (h1 : tok ≠ NO_VALUES)
    (h0 : tok ≠ ALL_VALUES) (hnd : (getDim cfg d).Nodup) :
    (getDim (set_sched_parameter_value (set_sched_parameter_value cfg d tok) d tok) d).toFinset
      = (getDim cfg d).toFinset := by
  rw [set_sched_toggle cfg d tok hpat h1 h0]
  by_cases hmem : strip_hour_minute tok ∈ getDim cfg d
  · rw [if_pos hmem]
    have hgd : getDim (setDim cfg d ((getDim cfg d).erase (strip_hour_minute tok))) d =
        (getDim cfg d).erase (strip_hour_minute tok) := getDim_setDim_self ..
    rw [set_sched_toggle _ d tok hpat h1 h0, hgd]
    have hvout : strip_hour_minute tok ∉ (getDim cfg d).erase (strip_hour_minute tok) :=
      fun hcontra => ((List.Nodup.mem_erase_iff hnd).mp hcontra).1 rfl
    rw [if_neg hvout, getDim_setDim_self]
    ext x
    simp only [List.mem_toFinset, List.mem_append, List.mem_singleton]
    constructor
    · rintro (hx | rfl)
      · exact ((List.Nodup.mem_erase_iff hnd).mp hx).2
      · exact hmem
    · intro hx
      by_cases hxv : x = strip_hour_minute tok
      · exact Or.inr hxv
      · exact Or.inl ((List.Nodup.mem_erase_iff hnd).mpr ⟨hxv, hx⟩)
  · rw [if_neg hmem]
    have hgd : getDim (setDim cfg d (getDim cfg d ++ [strip_hour_minute tok])) d =
        getDim cfg d ++ [strip_hour_minute tok] := getDim_setDim_self ..
    rw [set_sched_toggle _ d tok hpat h1 h0, hgd]
    have hvin : strip_hour_minute tok ∈ getDim cfg d ++ [strip_hour_minute tok] := by simp
    rw [if_pos hvin, getDim_setDim_self, List.erase_append_right _ hmem]
    simp

theorem c9_toggle_involutive_witness :
    value_pattern_matches Dim.minute "minute_5" = true ∧ "minute_5" ≠ NO_VALUES ∧
      "minute_5" ≠ ALL_VALUES ∧
      (getDim { emptyConfig with minute := ["5", "10"] } Dim.minute).Nodup ∧
      (getDim (set_sched_parameter_value
            (set_sched_parameter_value { emptyConfig with minute := ["5", "10"] }
              Dim.minute "minute_5")
            Dim.minute "minute_5") Dim.minute).toFinset
        = (getDim { emptyConfig with minute := ["5", "10"] } Dim.minute).toFinset :=
  ⟨by decide, by decide, by decide, by decide,
    c9_toggle_involutive { emptyConfig with minute := ["5", "10"] } Dim.minute "minute_5"
      (by decide) (by decide) (by decide) (by decide)⟩

/-- C10 as literally stated is falsified by the code: the hour allow-list
regex, matched with python `re.match`, also accepts `"hour_5\n"` — `$`
matches just before one trailing newline — and that token is neither a
sentinel nor of the form `hour_n` with `0 ≤ n ≤ 23`. -/
theorem c10_hour_pattern_counterexample :
    value_pattern_matches Dim.hour "hour_5\n" = true ∧ "hour_5\n" ≠ ALL_VALUES ∧
      "hour_5\n" ≠ NO_VALUES ∧ ∀ n ∈ List.range 24, "hour_5\n" ≠ "hour_" ++ toString n :=
  ⟨by decide, by decide, by decide, by decide⟩

/-- C10 (amended): the hour allow-list accepts, besides the sentinels
`"0"` and `"-1"`, only tokens of the form `hour_n` with `0 ≤ n ≤ 23` —
each of these optionally followed by one trailing newline, which the `$`
anchor admits.  In particular `hour_24` is rejected even though `"24"`
belongs to the declared hour domain 0..24, so no transition other than
the `ALL_VALUES` sentinel on the hour dimension can introduce `"24"` into
the hour selection — while `ALL_VALUES` installs the full domain and with
it `"24"`. -/
theorem c10_hour24_only_by_all (cfg : ScheduleConfig) (d : Dim) (tok : String)
    (h24 : "24" ∉ cfg.hour) (hna : ¬(d = Dim.hour ∧ tok = ALL_VALUES)) :
    "24" ∉ (set_sched_parameter_value cfg d tok).hour ∧
      "24" ∈ (set_sched_parameter_value cfg Dim.hour ALL_VALUES).hour ∧
      value_pattern_matches Dim.hour "hour_24" = false ∧
      "24" ∈ full_range_dict Dim.hour ∧
      (∀ s, value_pattern_matches Dim.hour s = true →
        s = NO_VALUES ∨ s = ALL_VALUES ∨ s = NO_VALUES ++ "\n" ∨ s = ALL_VALUES ++ "\n" ∨
          ∃ n ∈ List.range 24, s = "hour_" ++ toString n ∨ s = "hour_" ++ toString n ++ "\n") := by
  have hchar : ∀ x ∈ pattern_language Dim.hour,
      x = NO_VALUES ∨ x = ALL_VALUES ∨ x = NO_VALUES ++ "\n" ∨ x = ALL_VALUES ++ "\n" ∨
        ∃ n ∈ List.range 24, x = "hour_" ++ toString n ∨ x = "hour_" ++ toString n ++ "\n" := by
    decide
  refine ⟨?_, ?_, by decide, by decide, fun s h => hchar s (matches_mem h)⟩
  · by_cases hd : d = Dim.hour
    · subst hd
      show "24" ∉ getDim (set_sched_parameter_value cfg Dim.hour tok) Dim.hour
      by_cases hpat : value_pattern_matches Dim.hour tok = true
      · by_cases h1 : tok = NO_VALUES
        · subst h1
          rw [set_sched_no_values, getDim_setDim_self]
          simp
        · have h0 : tok ≠ ALL_VALUES := fun h => hna ⟨rfl, h⟩
          rw [set_sched_toggle cfg Dim.hour tok hpat h1 h0]
          have hstrip : strip_hour_minute tok ≠ "24" :=
            hour_strip_ne_24 tok (matches_mem hpat)
          by_cases hmem : strip_hour_minute tok ∈ getDim cfg Dim.hour
          · rw [if_pos hmem, getDim_setDim_self]
            intro hcontra
            exact h24 (List.mem_of_mem_erase hcontra)
          · rw [if_neg hmem, getDim_setDim_self]
            intro hcontra
            rcases List.mem_append.mp hcontra with h | h
            · exact h24 h
            · exact hstrip (List.mem_singleton.mp h).symm
      · rw [set_sched_of_not_matches cfg Dim.hour tok (by simpa using hpat)]
        exact h24
    · show "24" ∉ getDim (set_sched_parameter_value cfg d tok) Dim.hour
      rw [set_sched_frame cfg d Dim.hour tok (fun h => hd h.symm)]
      exact h24
  · show "24" ∈ getDim (set_sched_parameter_value cfg Dim.hour ALL_VALUES) Dim.hour
    rw [set_sched_all_values, getDim_setDim_self]
    decide

theorem c10_hour24_only_by_all_witness :
    "24" ∉ emptyConfig.hour ∧ ¬(Dim.hour = Dim.hour ∧ "hour_24" = ALL_VALUES) ∧
      ("24" ∉ (set_sched_parameter_value emptyConfig Dim.hour "hour_24").hour ∧
        "24" ∈ (set_sched_parameter_value emptyConfig Dim.hour ALL_VALUES).hour ∧
        value_pattern_matches Dim.hour "hour_24" = false ∧
        "24" ∈ full_range_dict Dim.hour ∧
        (∀ s, value_pattern_matches Dim.hour s = true →
          s = NO_VALUES ∨ s = ALL_VALUES ∨ s = NO_VALUES ++ "\n" ∨ s = ALL_VALUES ++ "\n" ∨
            ∃ n ∈ List.range 24,
              s = "hour_" ++ toString n ∨ s = "hour_" ++ toString n ++ "\n")) :=
  ⟨by decide, by decide,
    c10_hour24_only_by_all emptyConfig Dim.hour "hour_24" (by decide) (by decide)⟩
